import Mathlib

/-!
Verification of the OpenSlack inbound command plane against its source.

Each section shallowly embeds one component of the Go repository:
strings are modelled as Lean `String` or `List Char`/`List Nat` (bytes)
depending on whether the source manipulates bytes or whole strings,
machine integers are `Int`/`Nat` with explicit wrap-around where the source
relies on it, and effectful code is modelled by explicit state passing with
an event trace.
-/

namespace OpenSlack

/-! ## TOTP verifier (core/auth/totp.go)

SHA-1 and HMAC-SHA1 are embedded as pure functions over byte lists
(`List Nat`, each element < 256), following RFC 3174 exactly as Go's
`crypto/sha1` and `crypto/hmac` implement them. 32-bit words are `Nat`
reduced mod 2^32 at every step. -/

/-- Reduce a natural number to a 32-bit word. -/
def w32 (x : Nat) : Nat := x % 4294967296

/-- Rotate a 32-bit word left by `n` bits. -/
def rotl (n x : Nat) : Nat := w32 ((x <<< n) + (x >>> (32 - n)))

/-- Big-endian assembly of four bytes into a 32-bit word. -/
def bytesToWord (a b c d : Nat) : Nat := (a <<< 24) + (b <<< 16) + (c <<< 8) + d

/-- Split a byte list into big-endian 32-bit words (groups of four). -/
def toWords : List Nat → List Nat
  | a :: b :: c :: d :: rest => bytesToWord a b c d :: toWords rest
  | _ => []

/-- Big-endian 8-byte encoding of the low 64 bits of a natural number. -/
def u64be (n : Nat) : List Nat :=
  [w8 (n >>> 56), w8 (n >>> 48), w8 (n >>> 40), w8 (n >>> 32),
   w8 (n >>> 24), w8 (n >>> 16), w8 (n >>> 8), w8 n]
where w8 (x : Nat) : Nat := x % 256

/-- Big-endian 4-byte encoding of a 32-bit word. -/
def u32be (n : Nat) : List Nat :=
  [(n >>> 24) % 256, (n >>> 16) % 256, (n >>> 8) % 256, n % 256]

/-- SHA-1 message schedule extension. The schedule is kept newest-first, so
`w[i-3]` is element 2, `w[i-8]` element 7, `w[i-14]` element 13 and
`w[i-16]` element 15; `fuel` counts the remaining words (64 for a block). -/
def sha1Extend : Nat → List Nat → List Nat
  | 0, w => w
  | fuel + 1, w =>
    let x := rotl 1 (Nat.xor (Nat.xor (w.getD 2 0) (w.getD 7 0))
                             (Nat.xor (w.getD 13 0) (w.getD 15 0)))
    sha1Extend fuel (x :: w)

/-- SHA-1 round function selector for round `t` (0 ≤ t < 80). -/
def sha1F (t b c d : Nat) : Nat :=
  if t < 20 then Nat.lor (Nat.land b c) (Nat.land (4294967295 - b) d)
  else if t < 40 then Nat.xor (Nat.xor b c) d
  else if t < 60 then Nat.lor (Nat.lor (Nat.land b c) (Nat.land b d)) (Nat.land c d)
  else Nat.xor (Nat.xor b c) d

/-- SHA-1 round constant for round `t`. -/
def sha1K (t : Nat) : Nat :=
  if t < 20 then 1518500249
  else if t < 40 then 1859775393
  else if t < 60 then 2400959708
  else 3395469782

/-- Run the 80 SHA-1 rounds over the message schedule `ws` starting at round
index `t` with working state `(a, b, c, d, e)`. -/
def sha1Rounds (t : Nat) (st : Nat × Nat × Nat × Nat × Nat) :
    List Nat → Nat × Nat × Nat × Nat × Nat
  | [] => st
  | wt :: rest =>
    match st with
    | (a, b, c, d, e) =>
      let tmp := w32 (rotl 5 a + sha1F t b c d + e + sha1K t + wt)
      sha1Rounds (t + 1) (tmp, a, rotl 30 b, c, d) rest

/-- Compress one 64-byte block into the running hash state (five words). -/
def sha1Block (h : Nat × Nat × Nat × Nat × Nat) (block : List Nat) :
    Nat × Nat × Nat × Nat × Nat :=
  let ws := (sha1Extend 64 (toWords block).reverse).reverse
  match h, sha1Rounds 0 h ws with
  | (h0, h1, h2, h3, h4), (a, b, c, d, e) =>
    (w32 (h0 + a), w32 (h1 + b), w32 (h2 + c), w32 (h3 + d), w32 (h4 + e))

/-- Fold `sha1Block` over consecutive 64-byte blocks. `fuel` bounds the
number of blocks; it is structural so that kernel reduction works. -/
def sha1Blocks : Nat → (Nat × Nat × Nat × Nat × Nat) → List Nat →
    Nat × Nat × Nat × Nat × Nat
  | 0, h, _ => h
  | _ + 1, h, [] => h
  | fuel + 1, h, msg => sha1Blocks fuel (sha1Block h (msg.take 64)) (msg.drop 64)

/-- SHA-1 padding: append `0x80`, zero bytes to 56 mod 64, then the original
bit length as a big-endian 64-bit integer. -/
def sha1Pad (msg : List Nat) : List Nat :=
  let zeros := (119 - msg.length % 64) % 64
  msg ++ 128 :: List.replicate zeros 0 ++ u64be (8 * msg.length)

/-- SHA-1 of a byte list, producing the 20-byte digest. -/
def sha1 (msg : List Nat) : List Nat :=
  let padded := sha1Pad msg
  match sha1Blocks (padded.length / 64) (1732584193, 4023233417, 2562383102, 271733878, 3285377520) padded with
  | (h0, h1, h2, h3, h4) => u32be h0 ++ u32be h1 ++ u32be h2 ++ u32be h3 ++ u32be h4

/-- HMAC-SHA1 per RFC 2104, as implemented by Go's `crypto/hmac` with a
64-byte block size. -/
def hmacSha1 (key msg : List Nat) : List Nat :=
  let k := if 64 < key.length then sha1 key else key
  let k0 := k ++ List.replicate (64 - k.length) 0
  let ipad := k0.map (fun b => Nat.xor b 54)
  let opad := k0.map (fun b => Nat.xor b 92)
  sha1 (opad ++ sha1 (ipad ++ msg))

/-- Go `uint64(counter)` for an `int64` counter: two's-complement reduction. -/
def counterU64 (c : Int) : Nat := (c % 18446744073709551616).toNat

/-- ASCII digit character for `d < 10`. -/
def digitChar (d : Nat) : Char := Char.ofNat (48 + d)

/-- Go `fmt.Sprintf("%06d", n)` for `n < 1000000`: six zero-padded digits. -/
def pad6 (n : Nat) : List Char :=
  [digitChar (n / 100000 % 10), digitChar (n / 10000 % 10), digitChar (n / 1000 % 10),
   digitChar (n / 100 % 10), digitChar (n / 10 % 10), digitChar (n % 10)]

/-- Embedding of `generate` (core/auth/totp.go): HOTP code for a counter.
The HMAC-SHA1 sum is dynamically truncated per RFC 4226: the low nibble of
the last byte selects a 4-byte window, whose big-endian value is masked to
31 bits and reduced mod 10^6, then zero-padded to six digits. -/
def generate (secret : List Nat) (counter : Int) : List Char :=
  let sum := hmacSha1 secret (u64be (counterU64 counter))
  let offset := (sum.getD 19 0) % 16
  let code := (bytesToWord (sum.getD offset 0) (sum.getD (offset + 1) 0)
                (sum.getD (offset + 2) 0) (sum.getD (offset + 3) 0)) % 2147483648
  pad6 (code % 1000000)

/-- Embedding of `TOTP.Verify` (core/auth/totp.go). `nowSec` is the Unix
clock in seconds (a `Nat`: the Go code divides a non-negative `int64` by 30,
which agrees with `Nat` division). `constantTimeEqual` in the source returns
true exactly on equal strings, so it is modelled by list equality. The
source first rejects codes whose length is not 6; candidate codes are all
ASCII, so Go byte length and `List Char` length agree on every input that
can match. -/
def verify (secret : List Nat) (nowSec : Nat) (code : List Char) : Bool :=
  if code.length ≠ 6 then false
  else
    let counter : Int := Int.ofNat (nowSec / 30)
    [counter - 1, counter, counter + 1].any fun c => code == generate secret c

/-! ## Policy (core/policy/policy.go)

Instants and durations are modelled in nanoseconds (`Int`), matching Go's
`time.Time`/`time.Duration`; `time.Since(timestamp)` is `now - ts`. The
`seen` map is modelled by its key list, `seenOrder` by a list in FIFO
order. -/

/-- Freshness window: 5 minutes in nanoseconds. -/
def freshnessWindow : Int := 300000000000

/-- Capacity of the seen-update-id set. -/
def maxSeenIDs : Nat := 10000

/-- Number of ids evicted when the capacity is reached. -/
def pruneCount : Nat := 1000

/-- Error kinds of `Policy.Authorize` (the source returns distinct
`fmt.Errorf` messages; the kind identifies which one). -/
inductive AuthErr where
  | unauthorized
  | stale
  | duplicate
deriving DecidableEq, Repr

/-- State of `policy.Policy`: allowlist, seen update-id set (as key list)
and FIFO eviction order. -/
structure PolicyState where
  allowed : List Int
  seen : List Int
  seenOrder : List Int
deriving DecidableEq, Repr

/-- Embedding of `Policy.Authorize`. Checks the allowlist, the freshness
window (`time.Since(timestamp) > freshnessWindow` fails), then duplicate
update ids; on success it evicts the oldest `pruneCount` ids when the seen
set is at capacity, records the update id and appends it to the FIFO
order. Failures leave the state unchanged (the source returns before any
mutation). -/
def authorize (p : PolicyState) (chatID updateID : Int) (ts now : Int) :
    Except AuthErr PolicyState :=
  if ¬ p.allowed.contains chatID then .error .unauthorized
  else if freshnessWindow < now - ts then .error .stale
  else if p.seen.contains updateID then .error .duplicate
  else
    let (seen, order) :=
      if maxSeenIDs ≤ p.seen.length then
        ((p.seenOrder.take pruneCount).foldl (fun s k => s.erase k) p.seen,
         p.seenOrder.drop pruneCount)
      else (p.seen, p.seenOrder)
    .ok ⟨p.allowed, updateID :: seen, order ++ [updateID]⟩

/-! ## Approval store (core/approval/store.go) -/

/-- Pending-approval TTL: 2 minutes in nanoseconds. -/
def approvalExpiry : Int := 120000000000

/-- Capacity of the approval store. -/
def maxPending : Nat := 100

/-- One pending two-step approval (the source's `pending` struct). -/
structure PendingApproval where
  chatID : Int
  opName : String
  args : String
  createdAt : Int
deriving DecidableEq, Repr

/-- State of `approval.Store`: the nonce-keyed table, as an association
list with unique keys (a Go map). -/
structure ApprovalState where
  items : List (String × PendingApproval)
deriving DecidableEq, Repr

/-- Error kinds of `Store.Consume`. -/
inductive ConsumeErr where
  | unknownOrExpired
  | wrongChat
deriving DecidableEq, Repr

/-- Error message carried by each `Store.Consume` failure in the source. -/
def consumeErrMsg : ConsumeErr → String
  | .unknownOrExpired => "unknown or expired approval nonce"
  | .wrongChat => "approval nonce belongs to a different chat"

/-- Embedding of `pruneLocked`: drop entries older than the expiry
(`now.Sub(p.createdAt) > expiry` is deleted, so an entry survives iff
`now - createdAt ≤ expiry`). -/
def pruneApprovals (now : Int) (items : List (String × PendingApproval)) :
    List (String × PendingApproval) :=
  items.filter fun kv => now - kv.2.createdAt ≤ approvalExpiry

/-- Go map assignment `items[nonce] = p` on the association-list model. -/
def mapInsert (nonce : String) (p : PendingApproval)
    (items : List (String × PendingApproval)) : List (String × PendingApproval) :=
  (nonce, p) :: items.filter fun kv => kv.1 ≠ nonce

/-- Embedding of `Store.Create`. The CSPRNG nonce is an oracle input
(`nonce`); the source draws 8 random bytes and hex-encodes them. Prunes
first, fails at capacity, otherwise stores the entry timestamped `now`.
The pruned table persists even on the capacity failure (the source mutates
`s.items` in place). -/
def approvalCreate (s : ApprovalState) (now : Int) (chatID : Int)
    (opName args nonce : String) : Except String String × ApprovalState :=
  let items := pruneApprovals now s.items
  if maxPending ≤ items.length then (.error "too many pending approvals", ⟨items⟩)
  else (.ok nonce, ⟨mapInsert nonce ⟨chatID, opName, args, now⟩ items⟩)

/-- Embedding of `Store.Consume`. Prunes first; a missing (or just-pruned)
nonce fails with `unknownOrExpired`; a chat mismatch fails with `wrongChat`
and leaves the entry in the table; success deletes the entry and returns
the stored op name and args. -/
def approvalConsume (s : ApprovalState) (now : Int) (nonce : String)
    (chatID : Int) : Except ConsumeErr (String × String) × ApprovalState :=
  let items := pruneApprovals now s.items
  match items.lookup nonce with
  | none => (.error .unknownOrExpired, ⟨items⟩)
  | some p =>
    if p.chatID ≠ chatID then (.error .wrongChat, ⟨items⟩)
    else (.ok (p.opName, p.args), ⟨items.filter fun kv => kv.1 ≠ nonce⟩)

/-! ## Op registry (core/ops, registry source embedded in ops_test.go)

The registry is a name-keyed Go map. It is modelled generically over the
entry type `α` with an explicit `nameOf` function standing for the
`Op.Name()` method, so the same model serves both the data-level reload
claims and the dispatcher. `Register` keys by `op.Name()` verbatim — the
source performs no case folding. -/

/-- Embedding of `Registry.Register`: fails if the name is taken,
otherwise adds the entry under `nameOf op`. -/
def regRegister (nameOf : α → String) (r : List (String × α)) (op : α) :
    Except String (List (String × α)) :=
  if (r.lookup (nameOf op)).isSome then .error ("op already registered: " ++ nameOf op)
  else .ok (r ++ [(nameOf op, op)])

/-- Embedding of `Registry.Get`: map lookup, `none` when absent. -/
def regGet (r : List (String × α)) (name : String) : Option α :=
  r.lookup name

/-- Modelled from the spec: `Registry.Unregister` is referenced by the
Reloader and exercised by registry tests, but its source is not in the
repository snapshot. Per the spec, "`unregister(name)` is idempotent": it
deletes the map entry for `name` if present and does nothing otherwise. -/
def regUnregister (r : List (String × α)) (name : String) : List (String × α) :=
  r.filter fun kv => kv.1 ≠ name

/-! ## Shell ops (core/ops, shell source embedded in risk_test.go) -/

/-- The `ShellOp` config record: `{name, description, command, workdir}`. -/
structure ShellCfg where
  cmdName : String
  desc : String
  command : String
  workDir : String
deriving DecidableEq, Repr

/-- Embedding of the command string built by `ShellOp.Execute` and handed
to `bash -l -c`: the template with non-empty args appended after a space.
The source contains no placeholder handling. -/
def shellCommand (s : ShellCfg) (args : String) : String :=
  if args ≠ "" then s.command ++ " " ++ args else s.command

/-- Test for an occurrence of the two-character placeholder `\x7b\x7d`. -/
def hasPlaceholder : List Char → Bool
  | [] => false
  | [_] => false
  | c :: d :: rest => (c = '\x7b' && d = '\x7d') || hasPlaceholder (d :: rest)

/-- Substitute every occurrence of the placeholder `\x7b\x7d` by `args`. -/
def substPlaceholder (args : List Char) : List Char → List Char
  | [] => []
  | [c] => [c]
  | c :: d :: rest =>
    if c = '\x7b' ∧ d = '\x7d' then args ++ substPlaceholder args rest
    else c :: substPlaceholder args (d :: rest)

/-- Modelled from the spec: the command construction the spec (and the
repository's own test `TestShellOpPlaceholder`) describe — a `\x7b\x7d`
placeholder in the template is substituted with args, otherwise non-empty
args are appended after a space. Used only to compare the source's
behaviour against the specified one. -/
def specShellCommand (s : ShellCfg) (args : String) : String :=
  if hasPlaceholder s.command.data then ⟨substPlaceholder args.data s.command.data⟩
  else if args ≠ "" then s.command ++ " " ++ args
  else s.command

/-! ## Reloader (core/reload.go, embedded in unnamed part_004)

`ReloadCommands` touches the file system through `ops.LoadCommands`; the
load outcome is therefore a parameter: `.error` for a read/parse/validation
failure, `.ok cmds` for a successful load (a missing file loads as
`.ok []`). Registry entries are the data-level `OpEntry`, `builtin`
standing for any static op (e.g. `StatusOp`). -/

/-- Data-level registry entry: a static built-in op or a config-loaded
shell op. -/
inductive OpEntry where
  | builtin (name : String)
  | shell (cfg : ShellCfg)
deriving DecidableEq, Repr

/-- Name of a registry entry (the `Op.Name()` method: `ShellOp.Name()`
returns `CmdName`). -/
def entryName : OpEntry → String
  | .builtin n => n
  | .shell c => c.cmdName

/-- One step of `ReloadCommands`'s registration loop: register a loaded
command as a `ShellOp` and track its name, or skip it when `Register`
fails. -/
def registerLoaded (acc : List (String × OpEntry) × List String) (c : ShellCfg) :
    List (String × OpEntry) × List String :=
  match regRegister entryName acc.1 (.shell c) with
  | .error _ => acc
  | .ok r => (r, acc.2 ++ [c.cmdName])

/-- Embedding of `Reloader.ReloadCommands`: unregister every tracked shell
name and clear the tracked list; on load failure return (the registry keeps
only what survived unregistration); on success register each loaded command
as a `ShellOp`, skipping entries whose `Register` fails, and track the
names actually registered. Returns the new registry and tracked list. -/
def reloadCommands (reg : List (String × OpEntry)) (tracked : List String)
    (load : Except String (List ShellCfg)) :
    List (String × OpEntry) × List String :=
  let reg1 := tracked.foldl (fun r n => regUnregister r n) reg
  match load with
  | .error _ => (reg1, [])
  | .ok cmds => cmds.foldl registerLoaded (reg1, [])

/-! ## Connector router (core/connector/router.go, config in config_test.go)

Connector and tool names are `List Char`; `strings.IndexByte(q, '.')`
searches for the ASCII dot, which coincides with the first `'.'`
character. -/

/-- The reserved always-allowed tool name `__introspect`. -/
def introspectToolName : List Char := ['_', '_', 'i', 'n', 't', 'r', 'o', 's', 'p', 'e', 'c', 't']

/-- A connector's config entry: executable path and tool allowlist. -/
structure ConnectorCfg where
  exec : List Char
  tools : List (List Char)
deriving DecidableEq, Repr

/-- Connector config: the name-keyed connector table (limits are not needed
by the router's dispatch decision). -/
structure ConnConfig where
  connectors : List (List Char × ConnectorCfg)
deriving DecidableEq, Repr

/-- Split a qualified name at its first `'.'`: returns the part before and
after, or `none` when there is no dot. -/
def splitAtDot : List Char → Option (List Char × List Char)
  | [] => none
  | c :: rest =>
    if c = '.' then some ([], rest)
    else
      match splitAtDot rest with
      | some (pre, post) => some (c :: pre, post)
      | none => none

/-- Router error kinds (`splitTool` failures collapse to `invalidName`;
the source distinguishes them only by message text). -/
inductive RouterErr where
  | invalidName
  | unknownConnector
  | toolNotAllowed
deriving DecidableEq, Repr

/-- Embedding of `splitTool`: the connector part is everything before the
first dot, the tool part everything after it; both must be non-empty. -/
def splitTool (qualified : List Char) : Except RouterErr (List Char × List Char) :=
  match splitAtDot qualified with
  | none => .error .invalidName
  | some (conn, tool) =>
    if conn = [] then .error .invalidName
    else if tool = [] then .error .invalidName
    else .ok (conn, tool)

/-- Embedding of `ConnectorConfig.ToolAllowed`: `__introspect` is always
allowed, otherwise the tool must be in the allowlist. -/
def toolAllowed (cc : ConnectorCfg) (tool : List Char) : Bool :=
  if tool = introspectToolName then true else cc.tools.contains tool

/-- Embedding of `Router.Call` up to the manager hand-off: parse the
qualified name, look up the connector, check the allowlist; on success the
result is the `(connector, tool)` pair passed to `Manager.Call` (the
request envelope built around it carries a random id and the caller's
args); on failure the manager is never invoked. -/
def routerCall (cfg : ConnConfig) (qualifiedTool : List Char) :
    Except RouterErr (List Char × List Char) :=
  match splitTool qualifiedTool with
  | .error e => .error e
  | .ok (connName, toolName) =>
    match cfg.connectors.lookup connName with
    | none => .error .unknownConnector
    | some cc =>
      if ¬ toolAllowed cc toolName then .error .toolNotAllowed
      else .ok (connName, toolName)

/-! ## Dispatcher (core/dispatcher.go, embedded in auth/totp.go)

The dispatcher fields `totp`, `limiter` and `approvals` are Go interface
values and may be nil: they are modelled as `Option`s — the `TOTPVerifier`
interface is its single `Verify` method, the `RateLimiter`'s `Check` is a
function from chat id to an optional lockout error message while its
`RecordFailure`/`Reset` mutations are recorded in the event trace, and the
`ApprovalStore` is the concrete `approval.Store` state the daemon wires in.
`Handle` returns an event trace (texts passed to `respond`, op executions,
limiter mutations) plus the updated state. `respond` hands each text to the
Notifier after the byte-level truncation `respondText` below. -/

/-- Risk levels (`ops.RiskLevel`), ordered `none < low < high`. -/
inductive Risk where
  | none
  | low
  | high
deriving DecidableEq, Repr

/-- An op as the dispatcher sees it: name, optional declared risk (the
optional `RiskClassifier` interface) and the `Execute` method abstracted to
a function from args to a result or an error message. -/
structure DOp where
  name : String
  desc : String
  risk : Option Risk
  exec : String → Except String String

/-- Embedding of `ops.RiskOf`: the declared level, defaulting to `low`. -/
def riskOf (op : DOp) : Risk := op.risk.getD .low

/-- An inbound message (core/inbound.go); `timestamp` in Unix
nanoseconds. -/
structure InboundMessage where
  updateID : Int
  chatID : Int
  userID : Int
  text : String
  timestamp : Int

/-- Dispatcher state: policy, op registry, the three optional security
collaborators, and the number of execution slots currently held by other
in-flight handlers (the `sem` channel has capacity 2). -/
structure Dispatcher where
  policy : PolicyState
  registry : List (String × DOp)
  totp : Option (String → Bool)
  limiter : Option (Int → Option String)
  approvals : Option ApprovalState
  semUsed : Nat

/-- Execution-slot budget `maxConcurrentOps`. -/
def maxConcurrentOps : Nat := 2

/-- Trace of one `Handle` call: texts passed to `respond` (in order), op
executions as `(command, args)` pairs, chats on which `RecordFailure` and
`Reset` were invoked, and the updated dispatcher state. -/
structure HandleRes where
  replies : List String
  execs : List (String × String)
  fails : List Int
  resets : List Int
  state : Dispatcher

/-- An empty trace: `Handle` returned without responding or executing. -/
def silentRes (d : Dispatcher) : HandleRes := ⟨[], [], [], [], d⟩

/-- Embedding of `Dispatcher.recordFailure`: the chat is recorded only when
a limiter is attached. -/
def recFail (d : Dispatcher) (chatID : Int) : List Int :=
  if d.limiter.isSome then [chatID] else []

/-- Embedding of `Dispatcher.resetFailures`: traced only when a limiter is
attached. -/
def recReset (d : Dispatcher) (chatID : Int) : List Int :=
  if d.limiter.isSome then [chatID] else []

/-- Go `unicode.IsSpace` (the exhaustive White_Space code points). -/
def goIsSpace (c : Char) : Bool :=
  let n := c.toNat
  (9 ≤ n && n ≤ 13) || n == 32 || n == 133 || n == 160 || n == 5760 ||
  (8192 ≤ n && n ≤ 8202) || n == 8232 || n == 8233 || n == 8239 || n == 8287 || n == 12288

/-- Go `strings.TrimSpace`: drop leading and trailing white space. -/
def goTrimSpace (l : List Char) : List Char :=
  ((l.dropWhile goIsSpace).reverse.dropWhile goIsSpace).reverse

/-- Go `strings.TrimSpace` on a whole string. -/
def goTrimSpaceS (s : String) : String := ⟨goTrimSpace s.data⟩

/-- Go `strings.ToLower` restricted to its ASCII case: every command name
appearing in the pipeline is ASCII (Unicode `ToLower` additionally maps
non-ASCII uppercase letters, which no registered op name contains). -/
def goToLower (c : Char) : Char :=
  if 65 ≤ c.toNat ∧ c.toNat ≤ 90 then Char.ofNat (c.toNat + 32) else c

/-- Go `strings.SplitN(·, " ", 2)`: the part before the first space and,
when a space exists, the remainder after it. -/
def splitFirstSpace : List Char → List Char × Option (List Char)
  | [] => ([], none)
  | c :: rest =>
    if c = ' ' then ([], some rest)
    else
      let (pre, post) := splitFirstSpace rest
      (c :: pre, post)

/-- Split at the last space, returning the parts before and after it
(Go `strings.LastIndex(·, " ")` plus the two slices taken around it). -/
def splitLastSpace : List Char → Option (List Char × List Char)
  | [] => none
  | c :: rest =>
    match splitLastSpace rest with
    | some (pre, post) => some (c :: pre, post)
    | none => if c = ' ' then some ([], rest) else none

/-- Go `cmd[:strings.Index(cmd, "@")]` when an `@` exists, `cmd`
otherwise. -/
def stripAtSuffix : List Char → List Char
  | [] => []
  | c :: rest => if c = '@' then [] else c :: stripAtSuffix rest

/-- Embedding of `parseCommand`: trim, require a leading `/`, split on the
first space, trim args, strip an `@botname` suffix from the command and
lower-case it. Non-commands yield an empty command name. -/
def parseCommand (text : String) : String × String :=
  match goTrimSpace text.data with
  | '/' :: rest =>
    let parts := splitFirstSpace rest
    let args : List Char :=
      match parts.2 with
      | some r => goTrimSpace r
      | none => []
    (⟨(stripAtSuffix parts.1).map goToLower⟩, ⟨args⟩)
  | _ => ("", "")

/-- Embedding of `isTOTPCode`: exactly six ASCII decimal digits. -/
def isTOTPCode (s : List Char) : Bool :=
  s.length == 6 && s.all fun c => 48 ≤ c.toNat && c.toNat ≤ 57

/-- Embedding of `extractTOTP`: split a six-digit code off the last token
of args; when absent the args are returned unchanged with an empty code. -/
def extractTOTP (args : String) : String × String :=
  let a := goTrimSpace args.data
  if a = [] then ("", "")
  else
    match splitLastSpace a with
    | none => if isTOTPCode a then ("", ⟨a⟩) else (⟨a⟩, "")
    | some (pre, post) =>
      if isTOTPCode post then (⟨goTrimSpace pre⟩, ⟨post⟩) else (⟨a⟩, "")

/-- Embedding of the shared semaphore/execute/respond tail of `Handle` and
`handleApprove` (source steps 7-9): non-blocking slot acquire — when both
slots are held reply Busy without executing — then `op.Execute` and the
respond on its error or result. `fails`/`resets` carry limiter events from
the enclosing stage. -/
def runOp (d : Dispatcher) (fails resets : List Int) (cmd args : String)
    (op : DOp) : HandleRes :=
  if maxConcurrentOps ≤ d.semUsed then
    ⟨["Busy — too many operations running. Try again shortly."], [], fails, resets, d⟩
  else
    match op.exec args with
    | .error e => ⟨["Error running /" ++ cmd ++ ": " ++ e], [(cmd, args)], fails, resets, d⟩
    | .ok result => ⟨[result], [(cmd, args)], fails, resets, d⟩

/-- Embedding of `Handle` steps 5-9 for an ordinary command: registry
lookup, risk branch (TOTP extraction and check on `low` when a verifier is
attached, hard stop on `high` when a verifier is attached), then the
execute tail. -/
def handleRegistryCommand (d : Dispatcher) (chatID : Int) (cmd args : String) :
    HandleRes :=
  match regGet d.registry cmd with
  | none =>
    ⟨["Unknown command: /" ++ cmd ++ "\nSend /help for available commands."], [], [], [], d⟩
  | some op =>
    match riskOf op with
    | .none => runOp d [] [] cmd args op
    | .low =>
      match d.totp with
      | Option.none => runOp d [] [] cmd args op
      | some v =>
        let (realArgs, code) := extractTOTP args
        if code = "" then
          ⟨["/" ++ cmd ++ " requires a TOTP code as the last argument."], [],
            recFail d chatID, [], d⟩
        else if v code = false then
          ⟨["Invalid TOTP code."], [], recFail d chatID, [], d⟩
        else runOp d [] (recReset d chatID) cmd realArgs op
    | .high =>
      match d.totp with
      | Option.none => runOp d [] [] cmd args op
      | some _ =>
        ⟨["/" ++ cmd ++ " is a high-risk operation. Use /do " ++ cmd ++
            " <args> <totp> for two-step approval."], [], [], [], d⟩

/-- Embedding of `handleDo` (`/do <op> [args] <totp>`): parse the op name,
require and verify the trailing TOTP, require the op to exist, then create
a pending approval and reply with the nonce. `v` and `a` are the attached
verifier and approval store (the route guarantees both); `freshNonce` is
the CSPRNG oracle for `Store.Create`. No execution happens here. -/
def handleDo (d : Dispatcher) (v : String → Bool) (a : ApprovalState)
    (now : Int) (freshNonce : String) (chatID : Int) (args : String) : HandleRes :=
  let (opName, restOpt) := splitFirstSpace args.data
  if opName = [] then
    ⟨["Usage: /do <command> [args] <totp>"], [], [], [], d⟩
  else
    let opArgs : String := ⟨restOpt.getD []⟩
    let (realArgs, code) := extractTOTP opArgs
    if code = "" then
      ⟨["/do requires a TOTP code as the last argument."], [], recFail d chatID, [], d⟩
    else if v code = false then
      ⟨["Invalid TOTP code."], [], recFail d chatID, [], d⟩
    else
      let opNameS : String := ⟨opName⟩
      match regGet d.registry opNameS with
      | none =>
        ⟨["Unknown command: /" ++ opNameS], [], [], recReset d chatID, d⟩
      | some _ =>
        match approvalCreate a now chatID opNameS realArgs freshNonce with
        | (.error e, a1) =>
          ⟨["Failed to create approval: " ++ e], [], [], recReset d chatID,
            { d with approvals := some a1 }⟩
        | (.ok nonce, a1) =>
          ⟨["Pending approval for /" ++ opNameS ++ ". Send:\n/approve " ++ nonce ++
              " <totp>"], [], [], recReset d chatID, { d with approvals := some a1 }⟩

/-- Embedding of `handleApprove` (`/approve <nonce> <totp>`): require and
verify the TOTP, consume the nonce for this chat, re-resolve the op (it may
have been unregistered meanwhile) and run the execute tail on the stored
args. -/
def handleApprove (d : Dispatcher) (v : String → Bool) (a : ApprovalState)
    (now : Int) (chatID : Int) (args : String) : HandleRes :=
  let (realArgs, code) := extractTOTP args
  if code = "" then
    ⟨["Usage: /approve <nonce> <totp>"], [], recFail d chatID, [], d⟩
  else if v code = false then
    ⟨["Invalid TOTP code."], [], recFail d chatID, [], d⟩
  else
    let nonce := goTrimSpaceS realArgs
    match approvalConsume a now nonce chatID with
    | (.error e, a1) =>
      ⟨["Approval failed: " ++ consumeErrMsg e], [], [], recReset d chatID,
        { d with approvals := some a1 }⟩
    | (.ok (opName, opArgs), a1) =>
      let d1 := { d with approvals := some a1 }
      match regGet d1.registry opName with
      | none =>
        ⟨["Operation /" ++ opName ++ " no longer registered."], [], [],
          recReset d chatID, d1⟩
      | some op => runOp d1 [] (recReset d chatID) opName opArgs op

/-- Embedding of `Dispatcher.Handle`: authorize (silently dropping policy
rejects), check the lockout, parse the command (silently dropping
non-commands), route `/do` and `/approve` to the two-step handlers when
both an approval store and a TOTP verifier are attached, and otherwise look
the command up in the registry. `now` is the clock in Unix nanoseconds and
`freshNonce` the CSPRNG oracle. -/
def Handle (d : Dispatcher) (now : Int) (freshNonce : String)
    (msg : InboundMessage) : HandleRes :=
  match authorize d.policy msg.chatID msg.updateID msg.timestamp now with
  | .error _ => silentRes d
  | .ok pol =>
    let d1 : Dispatcher := { d with policy := pol }
    let limRes : Option String :=
      match d1.limiter with
      | some check => check msg.chatID
      | none => none
    match limRes with
    | some e => ⟨["Locked out: " ++ e], [], [], [], d1⟩
    | none =>
      let (cmd, args) := parseCommand msg.text
      if cmd = "" then silentRes d1
      else
        match cmd == "do", cmd == "approve", d1.approvals, d1.totp with
        | true, _, some a, some v => handleDo d1 v a now freshNonce msg.chatID args
        | false, true, some a, some v => handleApprove d1 v a now msg.chatID args
        | _, _, _, _ => handleRegistryCommand d1 msg.chatID cmd args

/-- Telegram message length cap used by `respond`. -/
def maxMessageLen : Nat := 4096

/-- UTF-8 bytes of the single ellipsis character prepended by `respond`. -/
def ellipsisBytes : List Nat := [226, 128, 166]

/-- Embedding of the text transformation in `Dispatcher.respond`, at the
byte level (Go `len` and slicing index bytes): a text of more than 4096
bytes becomes the ellipsis bytes followed by the original's last
`4096 - 3` bytes; shorter texts pass through unchanged. -/
def respondText (text : List Nat) : List Nat :=
  if maxMessageLen < text.length then
    ellipsisBytes ++ text.drop (text.length - maxMessageLen + ellipsisBytes.length)
  else text

/-! ## Shared association-list lemmas -/

/-- Lookup misses after filtering by a predicate that excludes the key. -/
theorem lookup_filter_keyne {β : Type} (l : List (String × β)) (k : String)
    (p : String × β → Bool) (hp : ∀ kv, p kv = true → kv.1 ≠ k) :
    (l.filter p).lookup k = none := by
  induction l with
  | nil => rfl
  | cons kv rest ih =>
    by_cases hkv : p kv = true
    · have hne : kv.1 ≠ k := hp kv hkv
      simp only [List.filter_cons, hkv, if_pos]
      simp only [List.lookup]
      have : (k == kv.1) = false := by
        simp only [beq_eq_false_iff_ne]
        exact fun h => hne h.symm
      rw [this]
      exact ih
    · simp only [List.filter_cons, eq_self_iff_true]
      rw [if_neg hkv]
      exact ih

/-- Deleting one key from an association list leaves other lookups alone. -/
theorem lookup_filter_other {β : Type} (l : List (String × β)) (k k' : String)
    (h : k' ≠ k) :
    (l.filter fun kv => kv.1 ≠ k).lookup k' = l.lookup k' := by
  induction l with
  | nil => rfl
  | cons kv rest ih =>
    by_cases hkv : kv.1 = k
    · have : (decide (kv.1 ≠ k)) = false := by simp [hkv]
      simp only [List.filter_cons, this, if_neg, Bool.false_eq_true,
        not_false_iff]
      simp only [List.lookup]
      have : (k' == kv.1) = false := by
        simp only [beq_eq_false_iff_ne]
        intro he
        exact h (he.trans hkv)
      rw [this]
      exact ih
    · have : (decide (kv.1 ≠ k)) = true := by simp [hkv]
      simp only [List.filter_cons, this, if_pos]
      simp only [List.lookup]
      cases hbe : (k' == kv.1) with
      | true => rfl
      | false => exact ih

/-- Lookup distributes over appending a single binding at the end. -/
theorem lookup_append_single {β : Type} (l : List (String × β)) (m : String)
    (v : β) (n : String) :
    (l ++ [(m, v)]).lookup n =
      match l.lookup n with
      | some x => some x
      | none => if n = m then some v else none := by
  induction l with
  | nil =>
    simp only [List.nil_append, List.lookup]
    by_cases h : n = m
    · subst h; simp
    · have : (n == m) = false := by simpa using h
      rw [this]
      simp [h]
  | cons kv rest ih =>
    simp only [List.cons_append, List.lookup]
    cases hbe : (n == kv.1) with
    | true => rfl
    | false => exact ih

/-! ## Claim C1 — unauthorized chats are dropped silently -/

/-- C1: for every inbound message whose chat id is not in the Policy
allowlist, `Dispatcher.Handle` sends no reply through the Notifier and
executes no op — it returns the empty trace (and unchanged state)
immediately after the failed `Policy.Authorize`, before any `respond` or
`Op.Execute`. -/
theorem handle_unauthorized_silent (d : Dispatcher) (now : Int)
    (freshNonce : String) (msg : InboundMessage)
    (h : d.policy.allowed.contains msg.chatID = false) :
    Handle d now freshNonce msg = silentRes d := by
  unfold Handle authorize
  rw [h]
  simp

/-- Witness for C1 at the spec's seed scenario 1: allowlist `{100}`, a
`/status` message from chat 999 produces no reply and no execution. -/
theorem handle_unauthorized_silent_witness :
    (Handle ⟨⟨[100], [], []⟩, [], Option.none, Option.none, Option.none, 0⟩ 0 "n"
        ⟨1, 999, 1, "/status", 0⟩).replies = [] ∧
    (Handle ⟨⟨[100], [], []⟩, [], Option.none, Option.none, Option.none, 0⟩ 0 "n"
        ⟨1, 999, 1, "/status", 0⟩).execs = [] := by
  rw [handle_unauthorized_silent _ 0 "n" _ (by decide)]
  exact ⟨rfl, rfl⟩

/-! ## Claim C4 — left truncation with leading ellipsis -/

/-- C4: `Dispatcher.respond` passes texts of at most 4096 bytes to the
Notifier unchanged; a longer text becomes a string of exactly 4096 bytes —
the single ellipsis character (three UTF-8 bytes) followed by a suffix of
the original text, so the tail is preserved. Lengths are byte lengths, as
measured by Go `len`. -/
theorem respond_truncation (text : List Nat) :
    (text.length ≤ maxMessageLen → respondText text = text) ∧
    (maxMessageLen < text.length →
      respondText text = ellipsisBytes ++ text.drop (text.length - 4093) ∧
      (respondText text).length = maxMessageLen ∧
      ∃ pre, pre ++ text.drop (text.length - 4093) = text) := by
  constructor
  · intro h
    unfold respondText
    rw [if_neg (by omega)]
  · intro h
    unfold respondText
    rw [if_pos h]
    unfold maxMessageLen at h ⊢
    have hidx : text.length - 4096 + ellipsisBytes.length = text.length - 4093 := by
      simp only [ellipsisBytes, List.length_cons, List.length_nil]
      omega
    refine ⟨by rw [hidx], ?_, ⟨text.take (text.length - 4093), List.take_append_drop _ _⟩⟩
    rw [hidx]
    simp only [List.length_append, List.length_drop, ellipsisBytes,
      List.length_cons, List.length_nil]
    omega

/-- Witness for C4: a 4097-byte text is truncated to exactly 4096 bytes,
and a short text passes unchanged. -/
theorem respond_truncation_witness :
    (respondText (List.replicate 4097 97)).length = maxMessageLen ∧
    respondText [104, 105] = [104, 105] :=
  ⟨((respond_truncation (List.replicate 4097 97)).2
      (by simp only [maxMessageLen, List.length_replicate]; omega)).2.1,
   (respond_truncation [104, 105]).1
      (by simp only [maxMessageLen, List.length_cons, List.length_nil]; omega)⟩

/-! ## Claim C5 — authorization success condition and error order -/

/-- C5: `Policy.Authorize(chat, update, ts)` succeeds iff the chat is
allowlisted, the message is at most 5 minutes old and the update id is
unseen; on failure it returns exactly one of the mutually exclusive kinds
`Unauthorized`, `Stale`, `Duplicate`, checked in that order; and on success
it records the update id as seen, so that an immediate re-authorization of
the same fresh update fails with `Duplicate`. -/
theorem authorize_spec (p : PolicyState) (chat upd ts now : Int) :
    (authorize p chat upd ts now = .error .unauthorized ↔ chat ∉ p.allowed) ∧
    (authorize p chat upd ts now = .error .stale ↔
      chat ∈ p.allowed ∧ freshnessWindow < now - ts) ∧
    (authorize p chat upd ts now = .error .duplicate ↔
      chat ∈ p.allowed ∧ now - ts ≤ freshnessWindow ∧ upd ∈ p.seen) ∧
    ((∃ p1, authorize p chat upd ts now = .ok p1) ↔
      chat ∈ p.allowed ∧ now - ts ≤ freshnessWindow ∧ upd ∉ p.seen) ∧
    (∀ p1, authorize p chat upd ts now = .ok p1 →
      upd ∈ p1.seen ∧ p1.allowed = p.allowed ∧
      ∀ ts2 now2, now2 - ts2 ≤ freshnessWindow →
        authorize p1 chat upd ts2 now2 = .error .duplicate) := by
  by_cases h1 : chat ∈ p.allowed
  · by_cases h2 : freshnessWindow < now - ts
    · refine ⟨?_, ?_, ?_, ?_, ?_⟩ <;> (simp [authorize, h1, h2]; try omega)
    · by_cases h3 : upd ∈ p.seen
      · refine ⟨?_, ?_, ?_, ?_, ?_⟩ <;> (simp [authorize, h1, h2, h3]; try omega)
      · refine ⟨?_, ?_, ?_, ?_, ?_⟩
        · simp [authorize, h1, h2, h3]
        · simp [authorize, h1, h2, h3]
          try omega
        · simp [authorize, h1, h2, h3]
        · simp [authorize, h1, h2, h3]
          try omega
        · intro p1 hp1
          unfold authorize at hp1
          rw [if_neg (by simp [h1]), if_neg h2, if_neg (by simp [h3])] at hp1
          obtain rfl := Except.ok.inj hp1
          refine ⟨List.mem_cons_self _ _, rfl, ?_⟩
          intro ts2 now2 hfresh
          unfold authorize
          rw [if_neg (by simp [h1]), if_neg (by omega), if_pos (by simp)]
  · refine ⟨?_, ?_, ?_, ?_, ?_⟩ <;> simp [authorize, h1]

/-- Witness for C5: on the empty policy state with allowlist `{100}`, a
fresh update 7 is accepted and recorded, and its immediate replay is
rejected as a duplicate. -/
theorem authorize_spec_witness :
    (7 : Int) ∈ (PolicyState.mk [100] [7] [7]).seen ∧
    authorize ⟨[100], [7], [7]⟩ 100 7 0 0 = .error .duplicate := by
  have h := (authorize_spec ⟨[100], [], []⟩ 100 7 0 0).2.2.2.2
    ⟨[100], [7], [7]⟩ (by rfl)
  exact ⟨h.1, h.2.2 0 0 (by decide)⟩

/-! ## Claim C6 — approval round trip and single use -/

/-- Lookup misses survive any filtering. -/
theorem lookup_filter_none {β : Type} (l : List (String × β)) (k : String)
    (p : String × β → Bool) (h : l.lookup k = none) :
    (l.filter p).lookup k = none := by
  induction l with
  | nil => rfl
  | cons kv rest ih =>
    simp only [List.lookup] at h
    cases hbe : (k == kv.1) with
    | true => rw [hbe] at h; exact absurd h (by simp)
    | false =>
      rw [hbe] at h
      by_cases hkv : p kv = true
      · simp only [List.filter_cons, hkv, if_pos, List.lookup, hbe]
        exact ih h
      · simp only [List.filter_cons]
        rw [if_neg hkv]
        exact ih h

/-- C6: if `Create(chat, op, args)` returns nonce `n`, then a
`Consume(n, chat)` within the 2-minute expiry returns `(op, args)` and
removes the entry, so any further `Consume(n, chat)` fails with
`UnknownOrExpired`; `Consume` with the right nonce but a different chat
fails with `WrongChat` and leaves the entry in place; `Consume` of an
expired or missing nonce fails with `UnknownOrExpired`. -/
theorem approval_roundtrip (s : ApprovalState) (t1 t2 : Int) (chat chat2 : Int)
    (op args nonce : String) (s1 : ApprovalState)
    (hc : approvalCreate s t1 chat op args nonce = (.ok nonce, s1))
    (hfresh : t2 - t1 ≤ approvalExpiry) :
    (approvalConsume s1 t2 nonce chat).1 = .ok (op, args) ∧
    ((approvalConsume s1 t2 nonce chat).2).items.lookup nonce = none ∧
    (∀ t3, (approvalConsume ((approvalConsume s1 t2 nonce chat).2) t3 nonce chat).1 =
        .error .unknownOrExpired) ∧
    (chat2 ≠ chat →
      (approvalConsume s1 t2 nonce chat2).1 = .error .wrongChat ∧
      ((approvalConsume s1 t2 nonce chat2).2).items.lookup nonce =
        some ⟨chat, op, args, t1⟩) ∧
    (∀ t4, approvalExpiry < t4 - t1 →
      (approvalConsume s1 t4 nonce chat).1 = .error .unknownOrExpired) ∧
    (∀ sx : ApprovalState, ∀ n : String,
      (pruneApprovals t2 sx.items).lookup n = none →
      (approvalConsume sx t2 n chat).1 = .error .unknownOrExpired) := by
  unfold approvalCreate at hc
  by_cases hcap : maxPending ≤ (pruneApprovals t1 s.items).length
  · rw [if_pos hcap] at hc
    exact absurd (congrArg Prod.fst hc) (by simp)
  · rw [if_neg hcap] at hc
    have hs1 : s1 = ⟨mapInsert nonce ⟨chat, op, args, t1⟩ (pruneApprovals t1 s.items)⟩ :=
      (congrArg Prod.snd hc).symm
    subst hs1
    set rest := (pruneApprovals t1 s.items).filter (fun kv => kv.1 ≠ nonce) with hrest
    have hins : mapInsert nonce ⟨chat, op, args, t1⟩ (pruneApprovals t1 s.items) =
        (nonce, ⟨chat, op, args, t1⟩) :: rest := rfl
    have hprune2 : pruneApprovals t2 ((nonce, (⟨chat, op, args, t1⟩ : PendingApproval)) :: rest) =
        (nonce, (⟨chat, op, args, t1⟩ : PendingApproval)) :: pruneApprovals t2 rest := by
      unfold pruneApprovals
      rw [List.filter_cons, if_pos (by simpa using hfresh)]
    have hlkp : (pruneApprovals t2 ((nonce, (⟨chat, op, args, t1⟩ : PendingApproval)) :: rest)).lookup nonce =
        some ⟨chat, op, args, t1⟩ := by
      rw [hprune2]
      simp [List.lookup]
    have hrest_none : rest.lookup nonce = none :=
      lookup_filter_keyne _ _ _ (fun kv h => of_decide_eq_true h)
    have hmain : approvalConsume ⟨(nonce, (⟨chat, op, args, t1⟩ : PendingApproval)) :: rest⟩ t2 nonce chat =
        (.ok (op, args),
          ⟨((nonce, (⟨chat, op, args, t1⟩ : PendingApproval)) ::
              pruneApprovals t2 rest).filter fun kv => kv.1 ≠ nonce⟩) := by
      simp only [approvalConsume]
      rw [hlkp]
      simp [hprune2]
    refine ⟨?_, ?_, ?_, ?_, ?_, ?_⟩
    · rw [hins, hmain]
    · rw [hins, hmain]
      exact lookup_filter_keyne _ _ _ (fun kv h => of_decide_eq_true h)
    · intro t3
      rw [hins, hmain]
      simp only [approvalConsume]
      have : (pruneApprovals t3 (((nonce, (⟨chat, op, args, t1⟩ : PendingApproval)) ::
          pruneApprovals t2 rest).filter fun kv => kv.1 ≠ nonce)).lookup nonce = none :=
        lookup_filter_none _ _ _
          (lookup_filter_keyne _ _ _ (fun kv h => of_decide_eq_true h))
      rw [this]
    · intro hne
      have hcond : ((⟨chat, op, args, t1⟩ : PendingApproval).chatID ≠ chat2) :=
        fun h => hne (h.symm)
      constructor
      · rw [hins]
        simp only [approvalConsume]
        rw [hlkp]
        simp [hcond]
      · rw [hins]
        simp only [approvalConsume]
        rw [hlkp]
        simp only [hcond, ne_eq, not_false_iff, if_true, ite_true]
        exact hlkp
    · intro t4 hexp
      rw [hins]
      simp only [approvalConsume]
      have hdrop : pruneApprovals t4 ((nonce, (⟨chat, op, args, t1⟩ : PendingApproval)) :: rest) =
          pruneApprovals t4 rest := by
        unfold pruneApprovals
        rw [List.filter_cons, if_neg (by simp; omega)]
      rw [hdrop]
      have : (pruneApprovals t4 rest).lookup nonce = none :=
        lookup_filter_none _ _ _ hrest_none
      rw [this]
    · intro sx n hn
      simp only [approvalConsume]
      rw [hn]

/-- Witness for C6: a concrete create/consume round trip — the nonce
consumes once for the creating chat, a second consume fails, and a consume
from another chat fails with the wrong-chat error. -/
theorem approval_roundtrip_witness :
    (approvalConsume ⟨[("aabbccdd00112233", ⟨100, "status", "arg1", 0⟩)]⟩ 0
        "aabbccdd00112233" 100).1 = .ok ("status", "arg1") ∧
    (approvalConsume
        ((approvalConsume ⟨[("aabbccdd00112233", ⟨100, "status", "arg1", 0⟩)]⟩ 0
          "aabbccdd00112233" 100).2) 5 "aabbccdd00112233" 100).1 =
      .error .unknownOrExpired ∧
    (approvalConsume ⟨[("aabbccdd00112233", ⟨100, "status", "arg1", 0⟩)]⟩ 0
        "aabbccdd00112233" 999).1 = .error .wrongChat := by
  have h := approval_roundtrip ⟨[]⟩ 0 0 100 999 "status" "arg1" "aabbccdd00112233"
    ⟨[("aabbccdd00112233", ⟨100, "status", "arg1", 0⟩)]⟩ (by rfl) (by decide)
  exact ⟨h.1, h.2.2.1 5, (h.2.2.2.1 (by decide)).1⟩

/-! ## Claim C7 — TOTP verification window -/

/-- ASCII decimal digit test. -/
def isDecimalDigit (c : Char) : Bool := 48 ≤ c.toNat && c.toNat ≤ 57

/-- Every `digitChar` of a value below 10 is a decimal digit. -/
theorem digitChar_isDigit : ∀ d, d < 10 → isDecimalDigit (digitChar d) = true := by decide

/-- Every character of a padded six-digit code is a decimal digit. -/
theorem pad6_all_digits (n : Nat) : ∀ ch ∈ pad6 n, isDecimalDigit ch = true := by
  intro ch hch
  simp only [pad6, List.mem_cons, List.not_mem_nil, or_false] at hch
  rcases hch with rfl | rfl | rfl | rfl | rfl | rfl <;>
    exact digitChar_isDigit _ (Nat.mod_lt _ (by norm_num))

/-- A generated code always has exactly six characters. -/
theorem generate_length (secret : List Nat) (c : Int) :
    (generate secret c).length = 6 := rfl

/-- Characterization of `Verify`: a code is accepted exactly when it equals
the generated code of one of the three counters in the drift window. -/
theorem verify_eq_true_iff (secret : List Nat) (nowSec : Nat) (code : List Char) :
    verify secret nowSec code = true ↔
      ∃ c ∈ [Int.ofNat (nowSec / 30) - 1, Int.ofNat (nowSec / 30),
             Int.ofNat (nowSec / 30) + 1], code = generate secret c := by
  simp only [verify]
  by_cases h : code.length = 6
  · rw [if_neg (by omega)]
    simp only [List.any_eq_true, beq_iff_eq]
  · rw [if_pos (by omega)]
    constructor
    · intro hf
      exact Bool.noConfusion hf
    · rintro ⟨c, hc, rfl⟩
      exact absurd (generate_length secret c) h

/-- C7 (amended): `Verify(code)` accepts exactly the six-digit codes equal
to `HOTP(secret, ⌊now/30⌋ + o)` for some `o ∈ {−1, 0, +1}`; consequently
the code generated at any second `t ∈ [t0 − 30, t0 + 30]` verifies at `t0`.
A code generated outside the ±1-step window verifies only when its HOTP
value collides with one of the three in-window codes (such collisions do
occur — see the counterexample theorem). -/
theorem totp_verify_window (secret : List Nat) (t0 t : Nat) (code : List Char)
    (h30 : 30 ≤ t0) (hlo : t0 - 30 ≤ t) (hhi : t ≤ t0 + 30) :
    (verify secret t0 code = true ↔
      ∃ c ∈ [Int.ofNat (t0 / 30) - 1, Int.ofNat (t0 / 30), Int.ofNat (t0 / 30) + 1],
        code = generate secret c) ∧
    (∀ ch ∈ generate secret (Int.ofNat (t / 30)), isDecimalDigit ch = true) ∧
    (generate secret (Int.ofNat (t / 30))).length = 6 ∧
    verify secret t0 (generate secret (Int.ofNat (t / 30))) = true := by
  refine ⟨verify_eq_true_iff secret t0 code, pad6_all_digits _, generate_length _ _, ?_⟩
  rw [verify_eq_true_iff]
  refine ⟨Int.ofNat (t / 30), ?_, rfl⟩
  simp only [List.mem_cons, List.not_mem_nil, or_false, Int.ofNat_eq_coe]
  omega

/-- The repository's test secret: the base32 decoding of
`JBSWY3DPEHPK3PXP`. -/
def testSecretBytes : List Nat := [72, 101, 108, 108, 111, 33, 222, 173, 190, 239]

/-- Witness for C7: with the repository's test secret, the code generated
at second 30 (counter 1) verifies at second 60 (counter 2, window
`{1, 2, 3}`). -/
theorem totp_verify_window_witness :
    verify testSecretBytes 60 (generate testSecretBytes (Int.ofNat (30 / 30))) = true :=
  (totp_verify_window testSecretBytes 60 30 [] (by decide) (by decide) (by decide)).2.2.2

set_option maxRecDepth 10000 in
/-- Counterexample for C7 as stated: the clause "codes generated outside
the ±1-step window do not verify" fails. With the repository's test
secret, the HOTP value of counter 1109 collides with that of counter 492,
so the code generated at second 33270 (counter 1109, 617 steps away)
verifies at second 14760 (counter 492, window `{491, 492, 493}`). -/
theorem totp_outside_window_verifies :
    (33270 / 30 : Nat) = 1109 ∧ (14760 / 30 : Nat) = 492 ∧
    (Int.ofNat 1109 ∉ ([Int.ofNat 492 - 1, Int.ofNat 492, Int.ofNat 492 + 1] : List Int)) ∧
    verify testSecretBytes 14760 (generate testSecretBytes (Int.ofNat (33270 / 30))) = true := by
  refine ⟨rfl, rfl, by decide, ?_⟩
  decide

/-! ## Claim C2 — ShellOp placeholder substitution (code bug) -/

/-- The ShellOp of the repository's own test `TestShellOpPlaceholder`
(src/unnamed/part_005), whose command template contains the placeholder. -/
def placeholderCfg : ShellCfg :=
  ⟨"greet", "test placeholder", "echo \"hello \x7b\x7d world\"", ""⟩

/-- C2 (code bug): `ShellOp.Execute` never substitutes the `\x7b\x7d`
placeholder — it appends non-empty args to the template unconditionally.
On the repository's own test input (`TestShellOpPlaceholder`: template
`echo "hello \x7b\x7d world"`, args `crossfit`) the source builds the
command `echo "hello \x7b\x7d world" crossfit`, while the spec and the
test demand substitution, which would build
`echo "hello crossfit world"`. -/
theorem shellop_placeholder_not_substituted :
    shellCommand placeholderCfg "crossfit" = "echo \"hello \x7b\x7d world\" crossfit" ∧
    hasPlaceholder placeholderCfg.command.data = true ∧
    specShellCommand placeholderCfg "crossfit" = "echo \"hello crossfit world\"" ∧
    shellCommand placeholderCfg "crossfit" ≠ specShellCommand placeholderCfg "crossfit" := by
  refine ⟨by decide, by decide, by decide, by decide⟩

/-! ## Claim C3 — registry case folding (corrected) -/

/-- Counterexample for C3 as stated: the registry performs no case
folding. An op registered as `Foo` is not found by a `Get` with the
lower-cased name, and a second registration under `foo` does not collide
with it. -/
theorem registry_case_counterexample :
    regRegister entryName [] (.builtin "Foo") = .ok [("Foo", .builtin "Foo")] ∧
    regGet [("Foo", OpEntry.builtin "Foo")] "foo" = none ∧
    regRegister entryName [("Foo", OpEntry.builtin "Foo")] (.builtin "foo") =
      .ok [("Foo", .builtin "Foo"), ("foo", .builtin "foo")] :=
  ⟨rfl, rfl, rfl⟩

/-- Values below 123 survive the `Char.ofNat` round trip. -/
theorem char_toNat_ofNat_small : ∀ n, n < 123 → (Char.ofNat n).toNat = n := by decide

/-- The ASCII lower-casing map is idempotent. -/
theorem goToLower_idem (c : Char) : goToLower (goToLower c) = goToLower c := by
  unfold goToLower
  by_cases h : 65 ≤ c.toNat ∧ c.toNat ≤ 90
  · rw [if_pos h]
    have ht : (Char.ofNat (c.toNat + 32)).toNat = c.toNat + 32 :=
      char_toNat_ofNat_small _ (by omega)
    rw [if_neg (by omega)]
  · rw [if_neg h, if_neg h]

/-- C3 (amended): the registry itself is exact-match and case-sensitive —
`Register` keys by the op's name verbatim and a `Get` finds it only under
that exact spelling, so names differing in case do not collide. The lower
case folding the spec describes happens in the dispatcher's
`parseCommand`, which lower-cases the command before the registry lookup
(its output is a fixed point of ASCII lower-casing). -/
theorem registry_exact_match (r : List (String × OpEntry)) (op : OpEntry)
    (r1 : List (String × OpEntry)) (h : regRegister entryName r op = .ok r1) :
    regGet r1 (entryName op) = some op ∧
    (∀ n, n ≠ entryName op → regGet r1 n = regGet r n) ∧
    (∀ text cmd args, parseCommand text = (cmd, args) →
      String.mk (cmd.data.map goToLower) = cmd) := by
  unfold regRegister at h
  by_cases hex : (r.lookup (entryName op)).isSome
  · rw [if_pos hex] at h
    exact absurd h (by simp)
  · rw [if_neg hex] at h
    have hr1 : r1 = r ++ [(entryName op, op)] := (Except.ok.inj h).symm ▸ rfl
    have hnone : r.lookup (entryName op) = none := by
      cases hl : r.lookup (entryName op) with
      | none => rfl
      | some x => rw [hl] at hex; exact absurd rfl hex
    obtain rfl := (Except.ok.inj h)
    refine ⟨?_, ?_, ?_⟩
    · unfold regGet
      rw [lookup_append_single, hnone]
      simp
    · intro n hn
      unfold regGet
      rw [lookup_append_single]
      cases hl : r.lookup n with
      | none => simp [hn]
      | some x => rfl
    · intro text cmd args hp
      simp only [parseCommand] at hp
      split at hp
      · injection hp with h1 h2
        subst h1
        simp only [List.map_map]
        congr 1
        exact List.map_congr_left fun a _ => goToLower_idem a
      · injection hp with h1 h2
        subst h1
        rfl

/-- Witness for C3 (amended): a concrete exact-match register and get. -/
theorem registry_exact_match_witness :
    regGet [("abc", OpEntry.builtin "abc")] "abc" = some (.builtin "abc") ∧
    regGet [("abc", OpEntry.builtin "abc")] "zzz" = none := by
  have h := registry_exact_match [] (.builtin "abc") [("abc", .builtin "abc")] (by rfl)
  exact ⟨h.1, (h.2.1 "zzz" (by decide)).trans rfl⟩

/-! ## Claim C8 — hot reload of shell commands (corrected) -/

/-- Lookup after a chain of unregistrations: tracked names are gone,
everything else is untouched. -/
theorem regGet_foldl_unregister {α : Type} (tracked : List String)
    (reg : List (String × α)) (n : String) :
    regGet (tracked.foldl (fun r m => regUnregister r m) reg) n =
      if n ∈ tracked then none else regGet reg n := by
  induction tracked generalizing reg with
  | nil => simp
  | cons m rest ih =>
    simp only [List.foldl_cons, ih, List.mem_cons]
    by_cases hm : n ∈ rest
    · simp [hm]
    · by_cases hnm : n = m
      · subst hnm
        rw [if_neg hm, if_pos (Or.inl rfl)]
        exact lookup_filter_keyne _ _ _ (fun kv h => by simpa using h)
      · rw [if_neg hm, if_neg (by tauto)]
        exact lookup_filter_other reg m n hnm

/-- The registration loop of `ReloadCommands`, on files whose entry names
are distinct and fresh for the current registry: every entry lands in the
registry, other names are untouched, and the tracked list accumulates the
file's names in order. -/
theorem registerLoaded_foldl_spec (cmds : List ShellCfg)
    (reg : List (String × OpEntry)) (acc : List String)
    (hnodup : (cmds.map ShellCfg.cmdName).Nodup)
    (hfresh : ∀ c ∈ cmds, regGet reg c.cmdName = none) :
    (∀ c ∈ cmds, regGet (cmds.foldl registerLoaded (reg, acc)).1 c.cmdName =
      some (.shell c)) ∧
    (∀ n, n ∉ cmds.map ShellCfg.cmdName →
      regGet (cmds.foldl registerLoaded (reg, acc)).1 n = regGet reg n) ∧
    (cmds.foldl registerLoaded (reg, acc)).2 = acc ++ cmds.map ShellCfg.cmdName := by
  induction cmds generalizing reg acc with
  | nil => exact ⟨by simp, by simp, by simp⟩
  | cons c cs ih =>
    have hcnone : regGet reg c.cmdName = none := hfresh c (by simp)
    have hl : reg.lookup c.cmdName = none := hcnone
    have hreg : regRegister entryName reg (.shell c) =
        .ok (reg ++ [(c.cmdName, .shell c)]) := by
      unfold regRegister
      rw [if_neg (by simp [entryName, hl])]
      rfl
    have hstep : registerLoaded (reg, acc) c =
        (reg ++ [(c.cmdName, .shell c)], acc ++ [c.cmdName]) := by
      unfold registerLoaded
      rw [hreg]
    have hnotin : c.cmdName ∉ cs.map ShellCfg.cmdName := by
      simp only [List.map_cons, List.nodup_cons] at hnodup
      exact hnodup.1
    have hnodup2 : (cs.map ShellCfg.cmdName).Nodup := by
      simp only [List.map_cons, List.nodup_cons] at hnodup
      exact hnodup.2
    have hfresh2 : ∀ c2 ∈ cs, regGet (reg ++ [(c.cmdName, .shell c)]) c2.cmdName = none := by
      intro c2 hc2
      unfold regGet
      rw [lookup_append_single]
      have h2none : reg.lookup c2.cmdName = none := hfresh c2 (by simp [hc2])
      rw [h2none]
      have : c2.cmdName ≠ c.cmdName := by
        intro he
        exact hnotin (he ▸ List.mem_map_of_mem ShellCfg.cmdName hc2)
      simp [this]
    have ih2 := ih (reg ++ [(c.cmdName, .shell c)]) (acc ++ [c.cmdName]) hnodup2 hfresh2
    simp only [List.foldl_cons, hstep]
    refine ⟨?_, ?_, ?_⟩
    · intro c2 hc2
      rcases List.mem_cons.mp hc2 with rfl | hc2s
      · rw [ih2.2.1 c2.cmdName hnotin]
        unfold regGet
        rw [lookup_append_single, hl]
        simp
      · exact ih2.1 c2 hc2s
    · intro n hn
      simp only [List.map_cons, List.mem_cons, not_or] at hn
      rw [ih2.2.1 n hn.2]
      unfold regGet
      rw [lookup_append_single]
      cases hl : reg.lookup n with
      | none => simp [hn.1]
      | some x => rfl
    · rw [ih2.2.2]
      simp

/-- C8 (amended): `ReloadCommands` first unregisters every previously
tracked shell name, whether or not the load then succeeds. On a parse
error the registry keeps exactly what survived unregistration (the
built-ins) and the tracked list is empty. On a successful load whose entry
names are distinct and do not collide with the remaining (built-in)
registrations, the registry afterwards holds exactly those entries as
`ShellOp`s on top of the surviving registrations and all of them are
tracked — entries whose name does collide are skipped (`Register` fails),
which is what forces the "exactly one ShellOp per entry" reading of the
claim to be weakened. -/
theorem reload_commands_spec (reg : List (String × OpEntry))
    (tracked : List String) (cmds : List ShellCfg) (e : String)
    (hnodup : (cmds.map ShellCfg.cmdName).Nodup)
    (hfresh : ∀ c ∈ cmds,
      regGet (tracked.foldl (fun r n => regUnregister r n) reg) c.cmdName = none) :
    (reloadCommands reg tracked (.error e) =
        (tracked.foldl (fun r n => regUnregister r n) reg, []) ∧
      ∀ n ∈ tracked, regGet (reloadCommands reg tracked (.error e)).1 n = none) ∧
    ((∀ c ∈ cmds,
        regGet (reloadCommands reg tracked (.ok cmds)).1 c.cmdName = some (.shell c)) ∧
      (∀ n, n ∉ cmds.map ShellCfg.cmdName →
        regGet (reloadCommands reg tracked (.ok cmds)).1 n =
          regGet (tracked.foldl (fun r n2 => regUnregister r n2) reg) n) ∧
      (reloadCommands reg tracked (.ok cmds)).2 = cmds.map ShellCfg.cmdName) := by
  have hspec := registerLoaded_foldl_spec cmds
    (tracked.foldl (fun r n => regUnregister r n) reg) [] hnodup hfresh
  refine ⟨⟨rfl, ?_⟩, ?_, ?_, ?_⟩
  · intro n hn
    show regGet (tracked.foldl (fun r m => regUnregister r m) reg) n = none
    rw [regGet_foldl_unregister]
    simp [hn]
  · exact hspec.1
  · exact hspec.2.1
  · show (cmds.foldl registerLoaded
        (tracked.foldl (fun r n => regUnregister r n) reg, [])).2 =
      cmds.map ShellCfg.cmdName
    rw [hspec.2.2]
    rfl

/-- Counterexample for C8 as stated: a successfully loaded entry whose
name collides with a surviving built-in is skipped, so the registry does
not contain "one ShellOp per entry of the new file" — the built-in keeps
the name and nothing is tracked. -/
theorem reload_collision_counterexample :
    reloadCommands [("status", OpEntry.builtin "status")] []
        (.ok [⟨"status", "shadow", "echo hi", ""⟩]) =
      ([("status", OpEntry.builtin "status")], []) ∧
    OpEntry.builtin "status" ≠ OpEntry.shell ⟨"status", "shadow", "echo hi", ""⟩ :=
  ⟨rfl, by decide⟩

/-- Witness for C8 (amended), mirroring the repository's reload tests: a
tracked `cmd1` is unregistered even when the new file fails to parse, and
a clean reload registers `cmd3` while preserving the built-in `status`. -/
theorem reload_commands_spec_witness :
    regGet (reloadCommands
        [("status", OpEntry.builtin "status"), ("cmd1", .shell ⟨"cmd1", "first", "echo 1", ""⟩)]
        ["cmd1"] (.error "parse commands config")).1 "cmd1" = none ∧
    regGet (reloadCommands
        [("status", OpEntry.builtin "status"), ("cmd1", .shell ⟨"cmd1", "first", "echo 1", ""⟩)]
        ["cmd1"] (.ok [⟨"cmd3", "third", "echo 3", ""⟩])).1 "cmd3" =
      some (.shell ⟨"cmd3", "third", "echo 3", ""⟩) ∧
    regGet (reloadCommands
        [("status", OpEntry.builtin "status"), ("cmd1", .shell ⟨"cmd1", "first", "echo 1", ""⟩)]
        ["cmd1"] (.ok [⟨"cmd3", "third", "echo 3", ""⟩])).1 "status" =
      some (.builtin "status") := by
  have h := reload_commands_spec
    [("status", OpEntry.builtin "status"), ("cmd1", .shell ⟨"cmd1", "first", "echo 1", ""⟩)]
    ["cmd1"] [⟨"cmd3", "third", "echo 3", ""⟩] "parse commands config"
    (by decide) (by decide)
  refine ⟨h.1.2 "cmd1" (by decide), h.2.1 ⟨"cmd3", "third", "echo 3", ""⟩ (by decide), ?_⟩
  rw [h.2.2.1 "status" (by decide)]
  rfl

/-! ## Claim C9 — router dispatch condition -/

/-- Characterization of the first-dot split: it succeeds with `(conn, tool)`
exactly when the input is `conn ++ '.' :: tool` with a dot-free `conn`. -/
theorem splitAtDot_some_iff (q : List Char) : ∀ conn tool : List Char,
    splitAtDot q = some (conn, tool) ↔ (q = conn ++ '.' :: tool ∧ '.' ∉ conn) := by
  induction q with
  | nil =>
    intro conn tool
    constructor
    · intro h
      exact absurd h (by simp [splitAtDot])
    · rintro ⟨hq, _⟩
      exact absurd hq.symm (by simp)
  | cons c rest ih =>
    intro conn tool
    by_cases hc : c = '.'
    · subst hc
      simp only [splitAtDot, if_pos rfl]
      constructor
      · intro h
        injection h with h1
        injection h1 with h2 h3
        subst h2
        subst h3
        exact ⟨rfl, List.not_mem_nil _⟩
      · rintro ⟨hq, hnd⟩
        cases conn with
        | nil =>
          simp only [List.nil_append] at hq
          injection hq with _ h2
          subst h2
          rfl
        | cons d conn2 =>
          simp only [List.cons_append] at hq
          injection hq with h1 _
          exact absurd (h1 ▸ List.mem_cons_self d conn2) (h1 ▸ hnd)
    · simp only [splitAtDot, if_neg hc]
      cases hsp : splitAtDot rest with
      | none =>
        constructor
        · intro h
          exact absurd h (by simp)
        · rintro ⟨hq, hnd⟩
          cases conn with
          | nil =>
            simp only [List.nil_append] at hq
            injection hq with h1 _
            exact absurd h1 hc
          | cons d conn2 =>
            simp only [List.cons_append] at hq
            injection hq with h1 h2
            subst h1
            have := (ih conn2 tool).mpr ⟨h2, fun hm => hnd (List.mem_cons_of_mem _ hm)⟩
            rw [hsp] at this
            exact absurd this (by simp)
      | some ct =>
        obtain ⟨pre, post⟩ := ct
        have hC := (ih pre post).mp hsp
        constructor
        · intro h
          injection h with h1
          injection h1 with h2 h3
          subst h2
          subst h3
          refine ⟨by rw [List.cons_append, hC.1], ?_⟩
          intro hm
          rcases List.mem_cons.mp hm with h1 | h2
          · exact hc h1.symm
          · exact hC.2 h2
        · rintro ⟨hq, hnd⟩
          cases conn with
          | nil =>
            simp only [List.nil_append] at hq
            injection hq with h1 _
            exact absurd h1 hc
          | cons d conn2 =>
            simp only [List.cons_append] at hq
            injection hq with h1 h2
            subst h1
            have := (ih conn2 tool).mpr ⟨h2, fun hm => hnd (List.mem_cons_of_mem _ hm)⟩
            rw [hsp] at this
            injection this with h3
            injection h3 with h4 h5
            subst h4
            subst h5
            rfl

/-- The allowlist test accepts exactly `__introspect` and listed tools. -/
theorem toolAllowed_iff (cc : ConnectorCfg) (tool : List Char) :
    toolAllowed cc tool = true ↔
      (tool = introspectToolName ∨ cc.tools.contains tool = true) := by
  unfold toolAllowed
  by_cases h : tool = introspectToolName
  · simp [h]
  · simp [h]

/-- Characterization of `splitTool`: it succeeds with `(conn, tool)`
exactly when the qualified name is `conn ++ '.' :: tool` with a dot-free,
non-empty `conn` and a non-empty `tool`. -/
theorem splitTool_ok_iff (q : List Char) : ∀ conn tool : List Char,
    splitTool q = .ok (conn, tool) ↔
      (q = conn ++ '.' :: tool ∧ '.' ∉ conn ∧ conn ≠ [] ∧ tool ≠ []) := by
  intro conn tool
  unfold splitTool
  cases hsp : splitAtDot q with
  | none =>
    constructor
    · intro h
      exact absurd h (by simp)
    · rintro ⟨hq, hnd, _, _⟩
      have := (splitAtDot_some_iff q conn tool).mpr ⟨hq, hnd⟩
      rw [hsp] at this
      exact absurd this (by simp)
  | some ct =>
    obtain ⟨c0, t0⟩ := ct
    have hC := (splitAtDot_some_iff q c0 t0).mp hsp
    show (if c0 = [] then Except.error RouterErr.invalidName
          else if t0 = [] then Except.error RouterErr.invalidName
          else Except.ok (c0, t0)) = Except.ok (conn, tool) ↔ _
    by_cases hc0 : c0 = []
    · rw [if_pos hc0]
      constructor
      · intro h
        exact absurd h (by simp)
      · rintro ⟨hq, hnd, hconn, _⟩
        have := (splitAtDot_some_iff q conn tool).mpr ⟨hq, hnd⟩
        rw [hsp] at this
        injection this with h1
        injection h1 with h2 _
        exact absurd (h2 ▸ hc0) hconn
    · rw [if_neg hc0]
      by_cases ht0 : t0 = []
      · rw [if_pos ht0]
        constructor
        · intro h
          exact absurd h (by simp)
        · rintro ⟨hq, hnd, _, htool⟩
          have := (splitAtDot_some_iff q conn tool).mpr ⟨hq, hnd⟩
          rw [hsp] at this
          injection this with h1
          injection h1 with _ h3
          exact absurd (h3 ▸ ht0) htool
      · rw [if_neg ht0]
        constructor
        · intro h
          injection h with h1
          injection h1 with h2 h3
          subst h2
          subst h3
          exact ⟨hC.1, hC.2, hc0, ht0⟩
        · rintro ⟨hq, hnd, _, _⟩
          have := (splitAtDot_some_iff q conn tool).mpr ⟨hq, hnd⟩
          rw [hsp] at this
          injection this with h1
          injection h1 with h2 h3
          subst h2
          subst h3
          rfl

/-- C9: `Router.Call` hands a request to the `ConnectorManager` exactly
when the qualified name splits at its first dot into a non-empty connector
part and a non-empty tool part, the connector part names a configured
connector, and the tool part is `__introspect` (always allowed) or in that
connector's allowlist; in every other case the result is an error and the
manager is never invoked (the `.ok` value is precisely the dispatch). -/
theorem router_call_spec (cfg : ConnConfig) (q : List Char) :
    ∀ conn tool : List Char,
      routerCall cfg q = .ok (conn, tool) ↔
        (q = conn ++ '.' :: tool ∧ '.' ∉ conn ∧ conn ≠ [] ∧ tool ≠ [] ∧
         ∃ cc, cfg.connectors.lookup conn = some cc ∧
           (tool = introspectToolName ∨ cc.tools.contains tool = true)) := by
  intro conn tool
  unfold routerCall
  cases hst : splitTool q with
  | error e =>
    constructor
    · intro h
      exact absurd h (by simp)
    · rintro ⟨hq, hnd, hc, ht, _⟩
      have := (splitTool_ok_iff q conn tool).mpr ⟨hq, hnd, hc, ht⟩
      rw [hst] at this
      exact absurd this (by simp)
  | ok ct =>
    obtain ⟨c0, t0⟩ := ct
    have hC := (splitTool_ok_iff q c0 t0).mp hst
    show (match cfg.connectors.lookup c0 with
          | none => Except.error RouterErr.unknownConnector
          | some cc =>
            if ¬ toolAllowed cc t0 = true then Except.error RouterErr.toolNotAllowed
            else Except.ok (c0, t0)) = Except.ok (conn, tool) ↔ _
    cases hlk : cfg.connectors.lookup c0 with
    | none =>
      constructor
      · intro h
        exact absurd h (by simp)
      · rintro ⟨hq, hnd, hc, ht, cc, hcc, _⟩
        have := (splitTool_ok_iff q conn tool).mpr ⟨hq, hnd, hc, ht⟩
        rw [hst] at this
        injection this with h1
        injection h1 with h2 h3
        subst h2
        rw [hlk] at hcc
        exact absurd hcc (by simp)
    | some cc0 =>
      show (if ¬ toolAllowed cc0 t0 = true then Except.error RouterErr.toolNotAllowed
            else Except.ok (c0, t0)) = Except.ok (conn, tool) ↔ _
      by_cases hall : toolAllowed cc0 t0 = true
      · rw [if_neg (by simp [hall])]
        constructor
        · intro h
          injection h with h1
          injection h1 with h2 h3
          subst h2
          subst h3
          exact ⟨hC.1, hC.2.1, hC.2.2.1, hC.2.2.2, cc0, hlk, (toolAllowed_iff cc0 t0).mp hall⟩
        · rintro ⟨hq, hnd, hc, ht, _⟩
          have heq := (splitTool_ok_iff q conn tool).mpr ⟨hq, hnd, hc, ht⟩
          rw [hst] at heq
          injection heq with h1
          injection h1 with h2 h3
          subst h2
          subst h3
          rfl
      · rw [if_pos (by simp [hall])]
        constructor
        · intro h
          exact absurd h (by simp)
        · rintro ⟨hq, hnd, hc, ht, cc, hcc, hok⟩
          have heq := (splitTool_ok_iff q conn tool).mpr ⟨hq, hnd, hc, ht⟩
          rw [hst] at heq
          injection heq with h1
          injection h1 with h2 h3
          rw [← h2] at hcc
          rw [← h3] at hok
          rw [hlk] at hcc
          have h4 := Option.some.inj hcc
          rw [← h4] at hok
          exact absurd ((toolAllowed_iff cc0 t0).mpr hok) hall

/-! ## Claim C10 — routing of /do and /approve -/

/-- `Handle` on an authorized, non-locked-out, well-formed command reaches
the routing stage: the result is the built-in-or-registry branch selected
by the command name and the presence of the approval store and TOTP
verifier. -/
theorem Handle_routed (d : Dispatcher) (now : Int) (freshNonce : String)
    (msg : InboundMessage) (cmd args : String) (p1 : PolicyState)
    (hp : parseCommand msg.text = (cmd, args))
    (ha : authorize d.policy msg.chatID msg.updateID msg.timestamp now = .ok p1)
    (hl : ∀ check, d.limiter = some check → check msg.chatID = none)
    (hcmd : cmd ≠ "") :
    Handle d now freshNonce msg =
      (match cmd == "do", cmd == "approve", d.approvals, d.totp with
       | true, _, some a, some v =>
         handleDo { d with policy := p1 } v a now freshNonce msg.chatID args
       | false, true, some a, some v =>
         handleApprove { d with policy := p1 } v a now msg.chatID args
       | _, _, _, _ =>
         handleRegistryCommand { d with policy := p1 } msg.chatID cmd args) := by
  cases hlim : d.limiter with
  | none =>
    simp only [Handle, ha, hlim, hp]
    rw [if_neg hcmd]
  | some check =>
    simp only [Handle, ha, hlim, hl check hlim, hp]
    rw [if_neg hcmd]

/-- C10: the dispatcher routes `/do` and `/approve` to the built-in
two-step handlers exactly when both an ApprovalStore and a TOTP verifier
are attached; the RateLimiter — present with a passing check, or absent —
plays no role in the routing (the dispatcher `d` here carries an arbitrary
limiter). When either security component is missing, `/do` and `/approve`
fall through to the ordinary registry path like any other command. -/
theorem twostep_routing (d : Dispatcher) (now : Int) (freshNonce : String)
    (msgD msgA : InboundMessage) (argsD argsA : String) (pD pA : PolicyState)
    (hpD : parseCommand msgD.text = ("do", argsD))
    (hpA : parseCommand msgA.text = ("approve", argsA))
    (haD : authorize d.policy msgD.chatID msgD.updateID msgD.timestamp now = .ok pD)
    (haA : authorize d.policy msgA.chatID msgA.updateID msgA.timestamp now = .ok pA)
    (hlD : ∀ check, d.limiter = some check → check msgD.chatID = none)
    (hlA : ∀ check, d.limiter = some check → check msgA.chatID = none) :
    (∀ v a, d.totp = some v → d.approvals = some a →
      Handle d now freshNonce msgD =
        handleDo { d with policy := pD } v a now freshNonce msgD.chatID argsD ∧
      Handle d now freshNonce msgA =
        handleApprove { d with policy := pA } v a now msgA.chatID argsA) ∧
    ((d.totp = none ∨ d.approvals = none) →
      Handle d now freshNonce msgD =
        handleRegistryCommand { d with policy := pD } msgD.chatID "do" argsD ∧
      Handle d now freshNonce msgA =
        handleRegistryCommand { d with policy := pA } msgA.chatID "approve" argsA) := by
  constructor
  · intro v a htotp happ
    constructor
    · rw [Handle_routed d now freshNonce msgD "do" argsD pD hpD haD hlD (by decide)]
      rw [htotp, happ]
      rfl
    · rw [Handle_routed d now freshNonce msgA "approve" argsA pA hpA haA hlA (by decide)]
      rw [htotp, happ]
      rfl
  · intro hab
    constructor
    · rw [Handle_routed d now freshNonce msgD "do" argsD pD hpD haD hlD (by decide)]
      rcases hab with hn | hn
      · cases happ2 : d.approvals with
        | none => rw [hn]; rfl
        | some a => rw [hn]; rfl
      · cases htot2 : d.totp with
        | none => rw [hn]; rfl
        | some v => rw [hn]; rfl
    · rw [Handle_routed d now freshNonce msgA "approve" argsA pA hpA haA hlA (by decide)]
      rcases hab with hn | hn
      · cases happ2 : d.approvals with
        | none => rw [hn]; rfl
        | some a => rw [hn]; rfl
      · cases htot2 : d.totp with
        | none => rw [hn]; rfl
        | some v => rw [hn]; rfl

/-- Witness for C10: with no ApprovalStore and no TOTP verifier attached,
`/do` is looked up in the (empty) registry like any other command and gets
the unknown-command reply. -/
theorem twostep_routing_witness :
    (Handle ⟨⟨[100], [], []⟩, [], Option.none, Option.none, Option.none, 0⟩ 0 "n"
        ⟨7, 100, 1, "/do echo hi 123456", 0⟩).replies =
      ["Unknown command: /do\nSend /help for available commands."] := by
  have h := twostep_routing
    ⟨⟨[100], [], []⟩, [], Option.none, Option.none, Option.none, 0⟩ 0 "n"
    ⟨7, 100, 1, "/do echo hi 123456", 0⟩ ⟨8, 100, 1, "/approve ab 123456", 0⟩
    "echo hi 123456" "ab 123456" ⟨[100], [7], [7]⟩ ⟨[100], [8], [8]⟩
    (by rfl) (by rfl) (by rfl) (by rfl)
    (fun check hch => Option.noConfusion hch) (fun check hch => Option.noConfusion hch)
  rw [(h.2 (Or.inl rfl)).1]
  rfl

end OpenSlack
